import Mathlib

/-!
Shallow embedding of the scope-aware identifier engine of this repository:
the filter predicates of `src/collections/Identifier.js` (`isVariable`,
`isDeclaratorID`, `isDeclaredBy`) and the collection methods of
`src/collections/VariableDeclarator.js` (`requiresModule`, `renameTo`,
`removeUnreferenced`), together with proofs of the specified properties.

Modelling conventions:
* JavaScript object identity (`===` on nodes, paths and scopes) is modelled
  by a numeric identity `NodeId` carried on each node/path/scope.
* An ast-types `Scope` is a record of its own path identity and the set of
  names it declares; the `scope` of a path (with its chain of `parent`
  scopes) is the list of scopes from the own scope of the path upward to
  the root.
* `path.parent.node` of an identifier path is modelled by `ParentNode`,
  recording the node type of the parent, the identities sitting in its
  relevant child slots, and its `computed` flag where the type has one.
* A thrown JavaScript error from the upward scope walk exhausting the chain
  (named `ScopeResolutionError` by the spec) is modelled by `Except.error`.
* Full-program searches (`Collection.fromPaths([p]).find(types.Identifier, ...)`)
  are modelled over a `Program` listing every identifier path of the tree;
  each identifier path carries the identities of its ancestor paths, and
  membership in the subtree rooted at `p` is membership of `p` among them.
-/

deriving instance DecidableEq for Except

namespace JCS

/-- Identity of an AST node / path (JavaScript reference identity). -/
abbrev NodeId := Nat

/-- An ast-types lexical scope: its own syntactic anchor path identity
(`scope.path`) and the list of names it declares (`scope.declares(name)` is
membership in `decls`). -/
structure Scope where
  path : NodeId
  decls : List String
deriving DecidableEq

/-- The membership test `scope.declares(name)` of ast-types. -/
def Scope.declares (s : Scope) (name : String) : Bool :=
  decide (name ∈ s.decls)

/-- The parent node of an identifier path, as consulted by the filters:
its node type, the identities in the child slots the filters compare with
`=== path.node`, and the `computed` flag where the node type has one.
`other` stands for every parent node type the filters do not single out. -/
inductive ParentNode where
  | memberExpression (object prop : NodeId) (computed : Bool)
  | property (key value : NodeId) (computed : Bool)
  | methodDefinition (key value : NodeId) (computed : Bool)
  | objectTypeProperty (key value : NodeId)
  | variableDeclarator (id : NodeId)
  | functionDeclaration (id : NodeId)
  | classDeclaration (id : NodeId)
  | typeAlias (id : NodeId)
  | other (tag : NodeId)
deriving DecidableEq

/-- A path to an Identifier node: the identity of the node, its `name`, its
parent node, its scope chain (`path.scope`, then the `parent` scopes up to
the root), and the identities of its proper ancestor paths (for subtree
searches). -/
structure IdentifierPath where
  node : NodeId
  name : String
  parent : ParentNode
  scope : Scope
  scopeParents : List Scope
  ancestors : List NodeId
deriving DecidableEq

/-- The scope chain of an identifier path, innermost first. -/
def IdentifierPath.scopeChain (p : IdentifierPath) : List Scope :=
  p.scope :: p.scopeParents

/-- A path to a VariableDeclarator node: its identity, the identity of its
`id` child node, the name of its `id` when the `id` is a plain Identifier
(`none` models a destructuring pattern, whose `id` has no `name`), and its
scope chain. -/
structure VariableDeclaratorPath where
  node : NodeId
  idNode : NodeId
  idName : Option String
  scope : Scope
  scopeParents : List Scope
deriving DecidableEq

/-- The scope chain of a declarator path, innermost first. -/
def VariableDeclaratorPath.scopeChain (d : VariableDeclaratorPath) : List Scope :=
  d.scope :: d.scopeParents

/-- Source `filterMethods.isVariable` (Identifier.js lines 24-65): true
unless the identifier is the non-computed `property` of a MemberExpression,
the non-computed `key` of a Property, the non-computed `key` of a
MethodDefinition, or the `key` of an ObjectTypeProperty. The check consults
only the parent node and the identity of the identifier node. -/
def isVariable (path : IdentifierPath) : Bool :=
  match path.parent with
  | .memberExpression _object prop computed =>
      if prop = path.node ∧ computed = false then false else true
  | .property key _value computed =>
      if key = path.node ∧ computed = false then false else true
  | .methodDefinition key _value computed =>
      if key = path.node ∧ computed = false then false else true
  | .objectTypeProperty key _value =>
      if key = path.node then false else true
  | _ => true

/-- Source `filterMethods.isDeclaratorID` (Identifier.js lines 67-89): true
iff the parent is a VariableDeclarator, FunctionDeclaration,
ClassDeclaration or TypeAlias and the identifier sits in the `id` slot of
the parent. -/
def isDeclaratorID (path : IdentifierPath) : Bool :=
  match path.parent with
  | .variableDeclarator id => decide (id = path.node)
  | .functionDeclaration id => decide (id = path.node)
  | .classDeclaration id => decide (id = path.node)
  | .typeAlias id => decide (id = path.node)
  | _ => false

/-- The upward scope walk `while (!scope.declares(name)) scope = scope.parent`
(Identifier.js lines 105-108 and 115-118), over the finite scope chain:
returns the first scope of the chain that declares `name`, or `none` when the
chain is exhausted (in which case the JavaScript loop steps past the root and
throws -- what the spec names `ScopeResolutionError`). -/
def declaringScopeOf (name : String) : List Scope → Option Scope
  | [] => none
  | s :: rest => if s.declares name then some s else declaringScopeOf name rest

/-- The error the spec names `ScopeResolutionError`: the upward scope walk
exhausted the chain without finding a declaring scope. -/
inductive ScopeResolutionError where
  | scopeWalkExhausted
deriving DecidableEq

/-- Lift the result of the scope walk into the error monad: an exhausted
chain raises `ScopeResolutionError` to the caller. -/
def orThrow : Option Scope → Except ScopeResolutionError Scope
  | some s => .ok s
  | none => .error .scopeWalkExhausted

/-- The inner closure of `filterMethods.isDeclaredBy` (Identifier.js lines
110-125), with the declarator `name` and the already-resolved declaring
scope closed over: false immediately when `!isVariable(identPath)`;
otherwise walk the scope chain of the candidate for `name` and compare the
path identity of the found scope with the path identity of the declaring
scope of the declarator. -/
def isDeclaredByPred (name : String) (varDeclaratorScope : Scope)
    (identPath : IdentifierPath) : Except ScopeResolutionError Bool :=
  if isVariable identPath = false then
    .ok false
  else do
    let scope ← orThrow (declaringScopeOf name identPath.scopeChain)
    .ok (decide (scope.path = varDeclaratorScope.path))

/-- Source `filterMethods.isDeclaredBy` (Identifier.js lines 98-126) applied
to a candidate: resolve the declaring scope of the declarator by the upward
walk from its own scope (lines 105-108), then run the candidate predicate.
A destructuring declarator has no `id.name`; no scope declares the undefined
name, so the declarator walk exhausts the chain and raises. -/
def isDeclaredBy (varDeclaratorPath : VariableDeclaratorPath)
    (identPath : IdentifierPath) : Except ScopeResolutionError Bool :=
  match varDeclaratorPath.idName with
  | none => .error .scopeWalkExhausted
  | some name => do
      let varDeclaratorScope ← orThrow
        (declaringScopeOf name varDeclaratorPath.scopeChain)
      isDeclaredByPred name varDeclaratorScope identPath

/-- The tree, as seen by the identifier searches: the list of every
Identifier path of the program. -/
structure Program where
  idents : List IdentifierPath
deriving DecidableEq

/-- The search rooted at the scope path,
`Collection.fromPaths([varPath.scope.path]).find(types.Identifier, ...)`
(VariableDeclarator.js lines 498-499 and 523-524): the identifier paths named
`name` lying in the subtree rooted at the path of the own syntactic scope of
the declarator. -/
def searchedIdentifiers (prog : Program) (varPath : VariableDeclaratorPath)
    (name : String) : List IdentifierPath :=
  prog.idents.filter
    (fun p => decide (p.name = name) && decide (varPath.scope.path ∈ p.ancestors))

/-- Collection filtering with a predicate that may throw: elements are
tested left to right and the first raised error propagates to the caller. -/
def filterE {α : Type} (p : α → Except ScopeResolutionError Bool) :
    List α → Except ScopeResolutionError (List α)
  | [] => .ok []
  | x :: xs => do
      let b ← p x
      let rest ← filterE p xs
      .ok (if b then x :: rest else rest)

/-- The mutation `path.get("name").replace(newName)` applied to every
identifier path whose node identity is among `targets`: the tree with
exactly those `name` fields replaced and every other node unchanged. -/
def Program.renameIdents (prog : Program) (targets : List NodeId)
    (newName : String) : Program :=
  ⟨prog.idents.map
    (fun p => if p.node ∈ targets then { p with name := newName } else p)⟩

/-- The body of the `forEach` in `renameTo` (VariableDeclarator.js lines
496-501) for one declarator: capture `oldName = varPath.node.id.name`, build
`isDeclaredBy(varPath)` (resolving the declaring scope of the declarator
once), search for identifiers named `oldName` under `varPath.scope.path`,
filter by the predicate, and replace the name of each match with `newName`.
A destructuring declarator has `oldName` undefined; the search for
identifiers of undefined name matches no Identifier, but building
`isDeclaredBy(varPath)` as the filter argument still performs the declarator
scope walk for the undefined name, which exhausts the chain and raises. -/
def renameDeclarator (newName : String) (prog : Program)
    (varPath : VariableDeclaratorPath) : Except ScopeResolutionError Program :=
  match varPath.idName with
  | none => .error .scopeWalkExhausted
  | some oldName => do
      let varDeclaratorScope ← orThrow
        (declaringScopeOf oldName varPath.scopeChain)
      let matched ← filterE (isDeclaredByPred oldName varDeclaratorScope)
        (searchedIdentifiers prog varPath oldName)
      .ok (prog.renameIdents (matched.map (fun p => p.node)) newName)

/-- Source `transformMethods.renameTo` (VariableDeclarator.js lines
494-503): the `forEach` over the declarator collection; the matches of each
declarator are resolved and renamed before the next declarator is
processed. -/
def renameTo (newName : String) (decls : List VariableDeclaratorPath)
    (prog : Program) : Except ScopeResolutionError Program :=
  decls.foldlM (fun pr d => renameDeclarator newName pr d) prog

/-- The filter callback of `removeUnreferenced` (VariableDeclarator.js lines
512-527): true iff the declarator is selected for removal. A declarator whose
`id` is not a plain Identifier (`!name`) is rejected at once, before any
search or scope walk. Otherwise `isDeclaredBy(varPath)` is built (resolving
the declaring scope of the declarator), and the declarator is selected iff zero
identifier paths named `name` under `varPath.scope.path` survive the
`!isDeclaratorID` and `isDeclaredBy` filters. -/
def isUnreferenced (prog : Program) (varPath : VariableDeclaratorPath) :
    Except ScopeResolutionError Bool :=
  match varPath.idName with
  | none => .ok false
  | some name => do
      let varDeclaratorScope ← orThrow
        (declaringScopeOf name varPath.scopeChain)
      let refs ← filterE (isDeclaredByPred name varDeclaratorScope)
        ((searchedIdentifiers prog varPath name).filter
          (fun p => !(isDeclaratorID p)))
      .ok (decide (refs.length = 0))

/-- Source `transformMethods.removeUnreferenced` (VariableDeclarator.js
lines 511-529), at the collection level. The per-declarator removal test is
`isUnreferenced`, embedded from the source. Modelled from the spec: the
generic collection combinators `filter` and `remove` it composes live in
`Collection.js` / `collections/Node.js`, which are not part of the sources
here; per the spec the composite returns the surviving declarators after the
selected ones are structurally removed. -/
def removeUnreferenced (prog : Program)
    (decls : List VariableDeclaratorPath) :
    Except ScopeResolutionError (List VariableDeclaratorPath) :=
  filterE (fun d => (isUnreferenced prog d).map (fun b => !b)) decls

/-- An expression subtree, to the depth `requiresModule` compares
structurally: the callee position (`astNodesAreEquivalent` against the built
identifier `require`) and the first-argument position
(`astNodesAreEquivalent(node.init.arguments[0], b.literal(n))` with `n` a
module-name string). `other` stands for every expression shape equivalent to
neither a bare identifier nor a string literal. -/
inductive ExprNode where
  | identifier (name : String)
  | literal (value : String)
  | other (tag : NodeId)
deriving DecidableEq

/-- The `init` of a declarator when present: a CallExpression with its callee
and argument list, or some other expression. -/
inductive InitNode where
  | callExpression (callee : ExprNode) (args : List ExprNode)
  | otherInit (tag : NodeId)
deriving DecidableEq

/-- A node as inspected by `requiresModule`: a VariableDeclarator with its
optional `init`, or any other node type. -/
inductive DNode where
  | variableDeclarator (id : ExprNode) (init : Option InitNode)
  | otherNode (tag : NodeId)
deriving DecidableEq

/-- The `names` argument of `requiresModule`: absent, a single module-name
string, or an array of module names. -/
inductive ModuleNames where
  | noNames
  | oneName (s : String)
  | listNames (l : List String)
deriving DecidableEq

/-- The argument normalisation of `requiresModule` together with the
`!names` truthiness test it feeds (VariableDeclarator.js lines 465-467 and
476): only a truthy non-array -- a non-empty string -- is wrapped into a
one-element array. An absent argument and the falsy empty string skip the
wrapping and make `!names` true (`none` here), so they match any require
declarator; an array, the empty array included, is truthy and kept. -/
def normalizeNames : ModuleNames → Option (List String)
  | .noNames => none
  | .oneName s => if s = "" then none else some [s]
  | .listNames l => some l

/-- Source `filterMethods.requiresModule` (VariableDeclarator.js lines
464-481): true iff the node is a VariableDeclarator whose `init` is a
CallExpression whose callee is structurally the bare identifier `require`,
and either no module names were given or the first call argument is
structurally the literal of one of the given names. -/
def requiresModule (names : ModuleNames) (node : DNode) : Bool :=
  match node with
  | .variableDeclarator _id (some (.callExpression callee args)) =>
      if callee = .identifier "require" then
        match normalizeNames names with
        | none => true
        | some l => l.any (fun n => decide (args.head? = some (.literal n)))
      else false
  | _ => false

/-! Auxiliary lemmas. -/

theorem exceptOkBind {α β : Type} (a : α)
    (f : α → Except ScopeResolutionError β) : (Except.ok a >>= f) = f a := rfl

theorem exceptErrorBind {α β : Type} (e : ScopeResolutionError)
    (f : α → Except ScopeResolutionError β) :
    ((Except.error e : Except ScopeResolutionError α) >>= f) = Except.error e :=
  rfl

theorem declaringScopeOf_eq_none (name : String) (chain : List Scope)
    (h : ∀ s ∈ chain, s.declares name = false) :
    declaringScopeOf name chain = none := by
  induction chain with
  | nil => rfl
  | cons c rest ih =>
      have hc := h c (List.mem_cons_self c rest)
      simp only [declaringScopeOf, hc, Bool.false_eq_true, if_false]
      exact ih (fun t ht => h t (List.mem_cons_of_mem c ht))

theorem isDeclaredByPred_ok_true_iff (name : String) (S : Scope)
    (P : IdentifierPath) :
    isDeclaredByPred name S P = .ok true ↔
      (isVariable P = true ∧
       ∃ SP, declaringScopeOf name P.scopeChain = some SP ∧ SP.path = S.path) := by
  unfold isDeclaredByPred
  cases hv : isVariable P with
  | false => simp [hv]
  | true =>
      simp only [hv, Bool.true_eq_false, if_false, true_and]
      cases hd : declaringScopeOf name P.scopeChain with
      | none => simp [orThrow, exceptErrorBind]
      | some SP => simp [orThrow, exceptOkBind]

theorem isDeclaredBy_eq_pred (D : VariableDeclaratorPath) (name : String)
    (S : Scope) (hname : D.idName = some name)
    (hS : declaringScopeOf name D.scopeChain = some S) (P : IdentifierPath) :
    isDeclaredBy D P = isDeclaredByPred name S P := by
  unfold isDeclaredBy
  rw [hname]
  show (do
      let varDeclaratorScope ← orThrow (declaringScopeOf name D.scopeChain)
      isDeclaredByPred name varDeclaratorScope P) = isDeclaredByPred name S P
  rw [hS]
  rfl

theorem isDeclaredBy_ne_ok_true_of_not_variable (D : VariableDeclaratorPath)
    (P : IdentifierPath) (hv : isVariable P = false) :
    isDeclaredBy D P ≠ .ok true := by
  unfold isDeclaredBy
  cases D.idName with
  | none => simp
  | some name =>
      cases hd : declaringScopeOf name D.scopeChain with
      | none => simp [orThrow, hd, exceptErrorBind]
      | some S => simp [orThrow, hd, exceptOkBind, isDeclaredByPred, hv]

theorem exceptMapOk {α β : Type} (f : α → β) (a : α) :
    (Except.ok a : Except ScopeResolutionError α).map f = .ok (f a) := rfl

theorem filterE_ok_elim {α : Type} (p : α → Except ScopeResolutionError Bool)
    (xs ys : List α) (h : filterE p xs = .ok ys) :
    ∀ a, a ∈ ys ↔ (a ∈ xs ∧ p a = .ok true) := by
  induction xs generalizing ys with
  | nil =>
      simp only [filterE] at h
      injection h with h
      subst h
      simp
  | cons x xs ih =>
      simp only [filterE] at h
      cases hpx : p x with
      | error e =>
          rw [hpx, exceptErrorBind] at h
          cases h
      | ok b =>
          rw [hpx, exceptOkBind] at h
          cases hrest : filterE p xs with
          | error e =>
              rw [hrest, exceptErrorBind] at h
              cases h
          | ok rest =>
              rw [hrest, exceptOkBind] at h
              injection h with h
              have hm := ih rest hrest
              cases b with
              | true =>
                  rw [if_pos rfl] at h
                  subst h
                  intro a
                  constructor
                  · intro ha
                    rcases List.mem_cons.mp ha with he | hm2
                    · subst he; exact ⟨List.mem_cons_self _ _, hpx⟩
                    · rcases (hm a).mp hm2 with ⟨h1, h2⟩
                      exact ⟨List.mem_cons_of_mem _ h1, h2⟩
                  · rintro ⟨ha, hpa⟩
                    rcases List.mem_cons.mp ha with he | hm2
                    · subst he; exact List.mem_cons_self _ _
                    · exact List.mem_cons_of_mem _ ((hm a).mpr ⟨hm2, hpa⟩)
              | false =>
                  rw [if_neg (by simp)] at h
                  subst h
                  intro a
                  constructor
                  · intro ha
                    rcases (hm a).mp ha with ⟨h1, h2⟩
                    exact ⟨List.mem_cons_of_mem _ h1, h2⟩
                  · rintro ⟨ha, hpa⟩
                    rcases List.mem_cons.mp ha with he | hm2
                    · subst he
                      rw [hpx] at hpa
                      injection hpa with hpa
                      cases hpa
                    · exact (hm a).mpr ⟨hm2, hpa⟩

theorem mem_searchedIdentifiers_iff (prog : Program)
    (D : VariableDeclaratorPath) (N : String) (P : IdentifierPath) :
    P ∈ searchedIdentifiers prog D N ↔
      (P ∈ prog.idents ∧ P.name = N ∧ D.scope.path ∈ P.ancestors) := by
  simp [searchedIdentifiers, List.mem_filter, and_assoc]

theorem mem_refsBase_iff (prog : Program) (D : VariableDeclaratorPath)
    (N : String) (P : IdentifierPath) :
    P ∈ (searchedIdentifiers prog D N).filter (fun p => !(isDeclaratorID p)) ↔
      (P ∈ prog.idents ∧ P.name = N ∧ D.scope.path ∈ P.ancestors ∧
       isDeclaratorID P = false) := by
  rw [List.mem_filter, mem_searchedIdentifiers_iff]
  simp [and_assoc]

/-! The claims. -/

/-- C2: `isVariable` returns false exactly when the identifier is the
non-computed `property` of a MemberExpression, the non-computed `key` of a
Property, the non-computed `key` of a MethodDefinition, or the `key` of an
ObjectTypeProperty; in every other parent position it returns true; and the
check consults only the parent node and the node identity, never the name,
scope chain or ancestry of the identifier. -/
theorem isVariable_false_iff_nameOnly :
    (∀ P : IdentifierPath,
      isVariable P = false ↔
        ((∃ o, P.parent = .memberExpression o P.node false) ∨
         (∃ v, P.parent = .property P.node v false) ∨
         (∃ v, P.parent = .methodDefinition P.node v false) ∨
         (∃ v, P.parent = .objectTypeProperty P.node v))) ∧
    (∀ (n : NodeId) (nm nm2 : String) (par : ParentNode) (sc sc2 : Scope)
       (sp sp2 : List Scope) (an an2 : List NodeId),
      isVariable ⟨n, nm, par, sc, sp, an⟩ = isVariable ⟨n, nm2, par, sc2, sp2, an2⟩) := by
  constructor
  · intro P
    rcases P with ⟨n, nm, par, sc, sp, an⟩
    cases par <;> simp [isVariable]
  · intro n nm nm2 par sc sc2 sp sp2 an an2
    cases par <;> rfl

/-- C6: when no scope in the finite chain (root included) declares the name,
the upward walk exhausts the chain (`none`, the JavaScript loop stepping past
the root) and `isDeclaredBy` raises `ScopeResolutionError` to its caller
instead of returning a boolean verdict. -/
theorem scopeWalk_exhausted_raises (N : String) (chain : List Scope)
    (h : ∀ s ∈ chain, s.declares N = false) :
    declaringScopeOf N chain = none ∧
    ∀ (D : VariableDeclaratorPath) (P : IdentifierPath),
      D.idName = some N → D.scopeChain = chain →
      isDeclaredBy D P = .error .scopeWalkExhausted := by
  have hnone := declaringScopeOf_eq_none N chain h
  refine ⟨hnone, ?_⟩
  intro D P hname hchain
  unfold isDeclaredBy
  rw [hname]
  show (do
      let varDeclaratorScope ← orThrow (declaringScopeOf N D.scopeChain)
      isDeclaredByPred N varDeclaratorScope P) = Except.error .scopeWalkExhausted
  rw [hchain, hnone]
  rfl

theorem scopeWalk_exhausted_raises_witness :
    isDeclaredBy ⟨10, 11, some "q", ⟨1, ["x"]⟩, []⟩
      ⟨20, "q", .other 5, ⟨1, ["x"]⟩, [], [1]⟩ = .error .scopeWalkExhausted :=
  (scopeWalk_exhausted_raises "q" [⟨1, ["x"]⟩] (by decide)).2
    ⟨10, 11, some "q", ⟨1, ["x"]⟩, []⟩ ⟨20, "q", .other 5, ⟨1, ["x"]⟩, [], [1]⟩
    rfl rfl

/-- C9: when some scope of the finite chain declares the name, the upward
walk terminates with a result (the total function returns `some`) and that
result is the first scope of the chain, start inclusive, that declares the
name. -/
theorem scopeWalk_first_declaring (N : String) (chain : List Scope)
    (h : ∃ s ∈ chain, s.declares N = true) :
    ∃ pre S post, declaringScopeOf N chain = some S ∧
      chain = pre ++ S :: post ∧ S.declares N = true ∧
      ∀ s ∈ pre, s.declares N = false := by
  induction chain with
  | nil => rcases h with ⟨s, hs, _⟩; cases hs
  | cons c rest ih =>
      by_cases hc : c.declares N = true
      · exact ⟨[], c, rest, by simp [declaringScopeOf, hc], rfl, hc, by simp⟩
      · have hcf : c.declares N = false := by
          cases hb : c.declares N with
          | false => rfl
          | true => exact absurd hb hc
        have hrest : ∃ s ∈ rest, s.declares N = true := by
          rcases h with ⟨s, hs, hd⟩
          rcases List.mem_cons.mp hs with he | hm
          · rw [he] at hd; exact absurd hd hc
          · exact ⟨s, hm, hd⟩
        rcases ih hrest with ⟨pre, S, post, h1, h2, h3, h4⟩
        refine ⟨c :: pre, S, post, ?_, by simp [h2], h3, ?_⟩
        · simp only [declaringScopeOf, hcf, Bool.false_eq_true, if_false]
          exact h1
        · intro s hs
          rcases List.mem_cons.mp hs with he | hm
          · rw [he]; exact hcf
          · exact h4 s hm

theorem scopeWalk_first_declaring_witness :
    ∃ pre S post,
      declaringScopeOf "x" [⟨2, []⟩, ⟨1, ["x"]⟩] = some S ∧
      [Scope.mk 2 [], Scope.mk 1 ["x"]] = pre ++ S :: post ∧
      S.declares "x" = true ∧ ∀ s ∈ pre, s.declares "x" = false :=
  scopeWalk_first_declaring "x" [⟨2, []⟩, ⟨1, ["x"]⟩] (by decide)

theorem requiresModule_congr (names1 names2 : ModuleNames)
    (h : normalizeNames names1 = normalizeNames names2) (node : DNode) :
    requiresModule names1 node = requiresModule names2 node := by
  cases node with
  | otherNode tag => rfl
  | variableDeclarator id init =>
      cases init with
      | none => rfl
      | some i =>
          cases i with
          | otherInit tag => rfl
          | callExpression callee args =>
              simp only [requiresModule]
              rw [h]

/-- C10, counterexample: the truthiness guard of lines 465-467 lets the
falsy empty-string argument skip the array wrapping, and `!names` (line 476)
then matches any require declarator with no argument check at all: with the
single name "" even a require call carrying no argument matches, whereas
treating "" as the one-element list would demand a first argument equal to
the literal of "". -/
theorem requiresModule_empty_string_counterexample :
    requiresModule (.oneName "") (.variableDeclarator (.identifier "v")
        (some (.callExpression (.identifier "require") []))) = true ∧
    requiresModule (.listNames [""]) (.variableDeclarator (.identifier "v")
        (some (.callExpression (.identifier "require") []))) = false :=
  ⟨rfl, rfl⟩

/-- C10 (amended): `requiresModule(names)` holds exactly of
VariableDeclarator nodes whose `init` is a CallExpression with callee
structurally equal to the bare identifier `require` and, when a truthy
names argument was given, first argument structurally equal to the literal
of one of the names; a truthy (non-empty) single string argument is treated
as the one-element array, while the falsy empty string, like an absent
argument, matches any such `require(...)` declarator. -/
theorem requiresModule_iff :
    (∀ (names : ModuleNames) (node : DNode),
      requiresModule names node = true ↔
        ∃ id callee args,
          node = .variableDeclarator id (some (.callExpression callee args)) ∧
          callee = .identifier "require" ∧
          (normalizeNames names = none ∨
           ∃ l, normalizeNames names = some l ∧
             ∃ n ∈ l, args.head? = some (.literal n))) ∧
    (∀ (s : String) (node : DNode), s ≠ "" →
      requiresModule (.oneName s) node = requiresModule (.listNames [s]) node) ∧
    (∀ node : DNode,
      requiresModule (.oneName "") node = requiresModule .noNames node) := by
  refine ⟨?_, ?_, ?_⟩
  · intro names node
    cases node with
    | otherNode tag => simp [requiresModule]
    | variableDeclarator id init =>
        cases init with
        | none => simp [requiresModule]
        | some i =>
            cases i with
            | otherInit tag => simp [requiresModule]
            | callExpression callee args =>
                by_cases hc : callee = ExprNode.identifier "require"
                · subst hc
                  cases hn : normalizeNames names with
                  | none =>
                      constructor
                      · intro _
                        exact ⟨id, .identifier "require", args, rfl, rfl, Or.inl rfl⟩
                      · intro _
                        simp [requiresModule, hn]
                  | some l =>
                      constructor
                      · intro ht
                        refine ⟨id, .identifier "require", args, rfl, rfl,
                          Or.inr ⟨l, rfl, ?_⟩⟩
                        simp [requiresModule, hn, List.any_eq_true] at ht
                        exact ht
                      · rintro ⟨id2, callee2, args2, heq, hcal, hor⟩
                        cases heq
                        rcases hor with hcontra | ⟨l2, hl2, n, hmem, harg⟩
                        · cases hcontra
                        · injection hl2 with hl2
                          subst hl2
                          simp [requiresModule, hn, List.any_eq_true]
                          exact ⟨n, hmem, harg⟩
                · constructor
                  · intro ht
                    exfalso
                    simp [requiresModule, hc] at ht
                  · rintro ⟨id2, callee2, args2, heq, hcal, hor⟩
                    cases heq
                    exact absurd hcal hc
  · intro s node hs
    exact requiresModule_congr _ _ (by simp [normalizeNames, hs]) node
  · intro node
    exact requiresModule_congr _ _ (by simp [normalizeNames]) node

theorem requiresModule_iff_witness :
    requiresModule (.oneName "module") (.variableDeclarator (.identifier "v")
        (some (.callExpression (.identifier "require") [.literal "module"]))) =
      requiresModule (.listNames ["module"])
        (.variableDeclarator (.identifier "v")
          (some (.callExpression (.identifier "require") [.literal "module"]))) :=
  requiresModule_iff.2.1 "module"
    (.variableDeclarator (.identifier "v")
      (some (.callExpression (.identifier "require") [.literal "module"])))
    (by decide)

/-- C1: the predicate produced by `isDeclaredBy(D)` accepts a candidate path
iff the candidate is in a variable-reference position and the declaring
scope of the declarator name resolved from the scope chain of the candidate
has the same path identity as the one resolved from the declarator chain;
in particular two identifiers with equal names but different declaring
scopes never match. -/
theorem isDeclaredBy_matches_iff (D : VariableDeclaratorPath) (N : String)
    (SD : Scope) (hname : D.idName = some N)
    (hSD : declaringScopeOf N D.scopeChain = some SD) :
    (∀ P : IdentifierPath,
      isDeclaredBy D P = .ok true ↔
        (isVariable P = true ∧
         ∃ SP, declaringScopeOf N P.scopeChain = some SP ∧ SP.path = SD.path)) ∧
    (∀ (P : IdentifierPath) (SP : Scope),
      declaringScopeOf N P.scopeChain = some SP → SP.path ≠ SD.path →
      isDeclaredBy D P ≠ .ok true) := by
  have key : ∀ P, isDeclaredBy D P = isDeclaredByPred N SD P :=
    fun P => isDeclaredBy_eq_pred D N SD hname hSD P
  constructor
  · intro P
    rw [key P]
    exact isDeclaredByPred_ok_true_iff N SD P
  · intro P SP hSP hne hok
    rw [key P] at hok
    rcases (isDeclaredByPred_ok_true_iff N SD P).mp hok with ⟨_, SP2, hSP2, hpath⟩
    rw [hSP] at hSP2
    injection hSP2 with h
    exact hne (by rw [h]; exact hpath)

theorem isDeclaredBy_matches_iff_witness :
    isDeclaredBy ⟨10, 11, some "x", ⟨1, ["x"]⟩, []⟩
      ⟨20, "x", .other 5, ⟨1, ["x"]⟩, [], [1]⟩ = .ok true :=
  ((isDeclaredBy_matches_iff ⟨10, 11, some "x", ⟨1, ["x"]⟩, []⟩ "x" ⟨1, ["x"]⟩
      rfl (by decide)).1 ⟨20, "x", .other 5, ⟨1, ["x"]⟩, [], [1]⟩).2
    ⟨rfl, ⟨1, ["x"]⟩, by decide, rfl⟩

/-- C3: a plain-identifier declarator is selected for removal iff no
identifier path in the subtree of its syntactic scope bears the same name, is a
non-binding occurrence, and satisfies `isDeclaredBy`; and appearances of the
name as a function, class or type-alias name are excluded from the count as
binding occurrences, while appearances as a non-computed property key,
method name or member-access property are excluded as non-variable
positions, so a declarator whose name occurs only so is still removed. -/
theorem removal_iff_no_references (prog : Program)
    (D : VariableDeclaratorPath) (N : String) (b : Bool)
    (hname : D.idName = some N) (hrun : isUnreferenced prog D = .ok b) :
    (b = true ↔ ∀ P ∈ prog.idents,
      ¬(P.name = N ∧ D.scope.path ∈ P.ancestors ∧ isDeclaratorID P = false ∧
        isDeclaredBy D P = .ok true)) ∧
    (∀ P : IdentifierPath,
      ((∃ i, P.parent = .functionDeclaration i ∧ i = P.node) ∨
       (∃ i, P.parent = .classDeclaration i ∧ i = P.node) ∨
       (∃ i, P.parent = .typeAlias i ∧ i = P.node) ∨
       (∃ v, P.parent = .property P.node v false) ∨
       (∃ v, P.parent = .methodDefinition P.node v false) ∨
       (∃ o, P.parent = .memberExpression o P.node false)) →
      ¬(isDeclaratorID P = false ∧ isDeclaredBy D P = .ok true)) := by
  constructor
  · have hrun2 : (do
        let varDeclaratorScope ← orThrow (declaringScopeOf N D.scopeChain)
        let refs ← filterE (isDeclaredByPred N varDeclaratorScope)
          ((searchedIdentifiers prog D N).filter (fun p => !(isDeclaratorID p)))
        Except.ok (decide (refs.length = 0))) = Except.ok b := by
      rw [← hrun]
      unfold isUnreferenced
      rw [hname]
    cases hSD : declaringScopeOf N D.scopeChain with
    | none =>
        rw [hSD] at hrun2
        simp only [orThrow] at hrun2
        rw [exceptErrorBind] at hrun2
        cases hrun2
    | some SD =>
        rw [hSD] at hrun2
        simp only [orThrow] at hrun2
        rw [exceptOkBind] at hrun2
        cases hflt : filterE (isDeclaredByPred N SD)
            ((searchedIdentifiers prog D N).filter
              (fun p => !(isDeclaratorID p))) with
        | error e =>
            rw [hflt, exceptErrorBind] at hrun2
            cases hrun2
        | ok refs =>
            rw [hflt, exceptOkBind] at hrun2
            injection hrun2 with hb
            subst hb
            rw [decide_eq_true_eq]
            constructor
            · intro hlen P hP hconj
              rcases hconj with ⟨h1, h2, h3, h4⟩
              have hbase := (mem_refsBase_iff prog D N P).mpr ⟨hP, h1, h2, h3⟩
              have hpred : isDeclaredByPred N SD P = .ok true := by
                rw [← isDeclaredBy_eq_pred D N SD hname hSD P]
                exact h4
              have hmem : P ∈ refs :=
                (filterE_ok_elim _ _ _ hflt P).mpr ⟨hbase, hpred⟩
              rw [List.length_eq_zero.mp hlen] at hmem
              cases hmem
            · intro hall
              rw [List.length_eq_zero]
              by_contra hne
              rcases List.exists_mem_of_ne_nil refs hne with ⟨P, hPr⟩
              rcases (filterE_ok_elim _ _ _ hflt P).mp hPr with ⟨hbase, hpred⟩
              rcases (mem_refsBase_iff prog D N P).mp hbase with ⟨hP, h1, h2, h3⟩
              refine hall P hP ⟨h1, h2, h3, ?_⟩
              rw [isDeclaredBy_eq_pred D N SD hname hSD P]
              exact hpred
  · intro P hshape
    rintro ⟨hid, hok⟩
    rcases hshape with ⟨i, hp, hi⟩ | ⟨i, hp, hi⟩ | ⟨i, hp, hi⟩ |
      ⟨v, hp⟩ | ⟨v, hp⟩ | ⟨o, hp⟩
    · subst hi
      have hd : isDeclaratorID P = true := by simp [isDeclaratorID, hp]
      rw [hd] at hid
      cases hid
    · subst hi
      have hd : isDeclaratorID P = true := by simp [isDeclaratorID, hp]
      rw [hd] at hid
      cases hid
    · subst hi
      have hd : isDeclaratorID P = true := by simp [isDeclaratorID, hp]
      rw [hd] at hid
      cases hid
    · exact isDeclaredBy_ne_ok_true_of_not_variable D P
        (by simp [isVariable, hp]) hok
    · exact isDeclaredBy_ne_ok_true_of_not_variable D P
        (by simp [isVariable, hp]) hok
    · exact isDeclaredBy_ne_ok_true_of_not_variable D P
        (by simp [isVariable, hp]) hok

theorem removal_iff_no_references_witness :
    ¬(isDeclaratorID ⟨30, "x", .methodDefinition 30 31 false, ⟨1, ["x"]⟩, [], [1]⟩ = false ∧
      isDeclaredBy ⟨10, 11, some "x", ⟨1, ["x"]⟩, []⟩
        ⟨30, "x", .methodDefinition 30 31 false, ⟨1, ["x"]⟩, [], [1]⟩ = .ok true) :=
  (removal_iff_no_references
      ⟨[⟨11, "x", .variableDeclarator 11, ⟨1, ["x"]⟩, [], [1, 10]⟩]⟩
      ⟨10, 11, some "x", ⟨1, ["x"]⟩, []⟩ "x" true rfl rfl).2
    ⟨30, "x", .methodDefinition 30 31 false, ⟨1, ["x"]⟩, [], [1]⟩
    (Or.inr (Or.inr (Or.inr (Or.inr (Or.inl ⟨31, rfl⟩)))))

/-- C7: `removeUnreferenced` returns exactly the surviving declarators of
its input collection: those the removal test rejected. The collection
combinators it composes are modelled from the spec (they are outside the
given sources); the removal test is `isUnreferenced`, embedded from the
source. -/
theorem removeUnreferenced_returns_survivors (prog : Program)
    (decls survivors : List VariableDeclaratorPath)
    (hrun : removeUnreferenced prog decls = .ok survivors) :
    ∀ D, D ∈ survivors ↔ (D ∈ decls ∧ isUnreferenced prog D = .ok false) := by
  intro D
  rw [filterE_ok_elim _ _ _ hrun D]
  constructor
  · rintro ⟨h1, h2⟩
    refine ⟨h1, ?_⟩
    cases hu : isUnreferenced prog D with
    | error e =>
        rw [hu] at h2
        cases h2
    | ok bb =>
        rw [hu, exceptMapOk] at h2
        injection h2 with h2
        cases bb with
        | false => rfl
        | true => cases h2
  · rintro ⟨h1, h2⟩
    refine ⟨h1, ?_⟩
    rw [h2, exceptMapOk]
    rfl

theorem removeUnreferenced_returns_survivors_witness :
    (⟨20, 21, some "y", ⟨1, ["x", "y", "f"]⟩, []⟩ : VariableDeclaratorPath) ∈
        [⟨10, 11, some "x", ⟨1, ["x", "y", "f"]⟩, []⟩,
         ⟨20, 21, some "y", ⟨1, ["x", "y", "f"]⟩, []⟩] ∧
      isUnreferenced
        ⟨[⟨11, "x", .variableDeclarator 11, ⟨1, ["x", "y", "f"]⟩, [], [1, 10]⟩,
          ⟨21, "y", .variableDeclarator 21, ⟨1, ["x", "y", "f"]⟩, [], [1, 20]⟩,
          ⟨30, "f", .other 40, ⟨1, ["x", "y", "f"]⟩, [], [1]⟩,
          ⟨31, "y", .other 41, ⟨1, ["x", "y", "f"]⟩, [], [1]⟩]⟩
        ⟨20, 21, some "y", ⟨1, ["x", "y", "f"]⟩, []⟩ = .ok false :=
  (removeUnreferenced_returns_survivors
      ⟨[⟨11, "x", .variableDeclarator 11, ⟨1, ["x", "y", "f"]⟩, [], [1, 10]⟩,
        ⟨21, "y", .variableDeclarator 21, ⟨1, ["x", "y", "f"]⟩, [], [1, 20]⟩,
        ⟨30, "f", .other 40, ⟨1, ["x", "y", "f"]⟩, [], [1]⟩,
        ⟨31, "y", .other 41, ⟨1, ["x", "y", "f"]⟩, [], [1]⟩]⟩
      [⟨10, 11, some "x", ⟨1, ["x", "y", "f"]⟩, []⟩,
       ⟨20, 21, some "y", ⟨1, ["x", "y", "f"]⟩, []⟩]
      [⟨20, 21, some "y", ⟨1, ["x", "y", "f"]⟩, []⟩]
      rfl ⟨20, 21, some "y", ⟨1, ["x", "y", "f"]⟩, []⟩).mp
    (by decide)

/-- C8: a declarator whose `id` is not a plain identifier (destructuring
pattern, modelled by `idName = none`) is never selected for removal: the
test answers `false` for every program, before any search or scope walk, no
error is raised, and the declarator always survives `removeUnreferenced`. -/
theorem pattern_declarator_retained (D : VariableDeclaratorPath)
    (hpat : D.idName = none) :
    (∀ prog : Program, isUnreferenced prog D = .ok false) ∧
    (∀ (prog : Program) (decls survivors : List VariableDeclaratorPath),
      removeUnreferenced prog decls = .ok survivors → D ∈ decls →
      D ∈ survivors) := by
  have hu : ∀ prog : Program, isUnreferenced prog D = .ok false := by
    intro prog
    unfold isUnreferenced
    rw [hpat]
  refine ⟨hu, ?_⟩
  intro prog decls survivors hrun hmem
  refine (filterE_ok_elim _ _ _ hrun D).mpr ⟨hmem, ?_⟩
  rw [hu prog, exceptMapOk]
  rfl

theorem pattern_declarator_retained_witness :
    isUnreferenced ⟨[⟨60, "z", .other 70, ⟨1, ["z"]⟩, [], [1]⟩]⟩
      ⟨50, 51, none, ⟨1, ["z"]⟩, []⟩ = .ok false :=
  (pattern_declarator_retained ⟨50, 51, none, ⟨1, ["z"]⟩, []⟩ rfl).1
    ⟨[⟨60, "z", .other 70, ⟨1, ["z"]⟩, [], [1]⟩]⟩

/-- C4, counterexample: a declarator whose syntactic scope does not itself
declare the name (the situation the upward-walk workaround in the source
exists for). The resolved declaring scope is the parent scope, with anchor
path 1; an identifier inside that subtree resolves to it and satisfies
`isDeclaredBy`, yet the search -- rooted by the code at path 2, the
syntactic scope of the declarator, not at the anchor of the resolved scope
-- never visits it, and the rename returns the tree unchanged. -/
theorem renameTo_search_root_counterexample :
    declaringScopeOf "x" (VariableDeclaratorPath.scopeChain
        ⟨10, 11, some "x", ⟨2, []⟩, [⟨1, ["x"]⟩]⟩) = some ⟨1, ["x"]⟩ ∧
    isDeclaredBy ⟨10, 11, some "x", ⟨2, []⟩, [⟨1, ["x"]⟩]⟩
        ⟨20, "x", .other 99, ⟨1, ["x"]⟩, [], [1]⟩ = .ok true ∧
    (1 : NodeId) ∈ IdentifierPath.ancestors
        ⟨20, "x", .other 99, ⟨1, ["x"]⟩, [], [1]⟩ ∧
    (⟨20, "x", .other 99, ⟨1, ["x"]⟩, [], [1]⟩ : IdentifierPath) ∉
      searchedIdentifiers ⟨[⟨20, "x", .other 99, ⟨1, ["x"]⟩, [], [1]⟩]⟩
        ⟨10, 11, some "x", ⟨2, []⟩, [⟨1, ["x"]⟩]⟩ "x" ∧
    renameDeclarator "y" ⟨[⟨20, "x", .other 99, ⟨1, ["x"]⟩, [], [1]⟩]⟩
        ⟨10, 11, some "x", ⟨2, []⟩, [⟨1, ["x"]⟩]⟩ =
      .ok ⟨[⟨20, "x", .other 99, ⟨1, ["x"]⟩, [], [1]⟩]⟩ :=
  ⟨rfl, rfl, by decide, by decide, rfl⟩

/-- C4 (amended): the search for candidates is rooted at the path of the
own syntactic scope of the declarator (`varPath.scope.path`), so only
identifiers below that path are visited and same-named identifiers in
sibling scopes never are; when that syntactic scope itself declares the name
-- making it the resolved declaring scope -- every identifier that resolves
to the same declaring scope lies inside the searched subtree (assuming the
scope-tree invariant that the anchor of the resolved scope of a path is
among the ancestors of that path), and is found by the search when it also
bears the searched name. -/
theorem renameTo_search_restricted (prog : Program)
    (D : VariableDeclaratorPath) (N : String)
    (hname : D.idName = some N) (hdecl : D.scope.declares N = true) :
    (∀ P ∈ searchedIdentifiers prog D N, D.scope.path ∈ P.ancestors) ∧
    (∀ P : IdentifierPath, D.scope.path ∉ P.ancestors →
      P ∉ searchedIdentifiers prog D N) ∧
    (∀ P ∈ prog.idents,
      (∀ SP, declaringScopeOf N P.scopeChain = some SP →
        SP.path ∈ P.ancestors) →
      isDeclaredBy D P = .ok true →
      (D.scope.path ∈ P.ancestors ∧
       (P.name = N → P ∈ searchedIdentifiers prog D N))) := by
  have hSD : declaringScopeOf N D.scopeChain = some D.scope := by
    simp [VariableDeclaratorPath.scopeChain, declaringScopeOf, hdecl]
  refine ⟨?_, ?_, ?_⟩
  · intro P hP
    exact ((mem_searchedIdentifiers_iff prog D N P).mp hP).2.2
  · intro P hanc hP
    exact hanc ((mem_searchedIdentifiers_iff prog D N P).mp hP).2.2
  · intro P hP hwf hok
    rw [isDeclaredBy_eq_pred D N D.scope hname hSD P] at hok
    rcases (isDeclaredByPred_ok_true_iff N D.scope P).mp hok with
      ⟨_, SP, hSP, hpath⟩
    have hin : D.scope.path ∈ P.ancestors := by
      rw [← hpath]
      exact hwf SP hSP
    exact ⟨hin, fun hnm =>
      (mem_searchedIdentifiers_iff prog D N P).mpr ⟨hP, hnm, hin⟩⟩

theorem renameTo_search_restricted_witness :
    (⟨20, "x", .other 99, ⟨1, ["x"]⟩, [], [1]⟩ : IdentifierPath) ∈
      searchedIdentifiers ⟨[⟨20, "x", .other 99, ⟨1, ["x"]⟩, [], [1]⟩]⟩
        ⟨10, 11, some "x", ⟨1, ["x"]⟩, []⟩ "x" := by
  have h := (renameTo_search_restricted
      ⟨[⟨20, "x", .other 99, ⟨1, ["x"]⟩, [], [1]⟩]⟩
      ⟨10, 11, some "x", ⟨1, ["x"]⟩, []⟩ "x" rfl rfl).2.2
      ⟨20, "x", .other 99, ⟨1, ["x"]⟩, [], [1]⟩ (by decide) ?_ rfl
  · exact h.2 rfl
  · intro SP hSP
    have h2 : some (⟨1, ["x"]⟩ : Scope) = some SP := hSP
    injection h2 with h2
    rw [← h2]
    decide

/-- C5, counterexample: the predicate of `isDeclaredBy` never consults the
own name of the candidate, so an identifier spelled differently from the
declarator name can satisfy it while lying in the searched subtree; the
rename leaves it untouched because the search pre-filters by the old name,
contradicting the claim that every satisfying identifier in the searched
subtree is renamed. -/
theorem renameTo_renames_counterexample :
    isDeclaredBy ⟨10, 11, some "x", ⟨1, ["x"]⟩, []⟩
        ⟨21, "z", .other 99, ⟨1, ["x"]⟩, [], [1]⟩ = .ok true ∧
    (1 : NodeId) ∈ IdentifierPath.ancestors
        ⟨21, "z", .other 99, ⟨1, ["x"]⟩, [], [1]⟩ ∧
    renameDeclarator "w"
        ⟨[⟨11, "x", .variableDeclarator 11, ⟨1, ["x"]⟩, [], [1, 10]⟩,
          ⟨21, "z", .other 99, ⟨1, ["x"]⟩, [], [1]⟩]⟩
        ⟨10, 11, some "x", ⟨1, ["x"]⟩, []⟩ =
      .ok ⟨[⟨11, "w", .variableDeclarator 11, ⟨1, ["x"]⟩, [], [1, 10]⟩,
            ⟨21, "z", .other 99, ⟨1, ["x"]⟩, [], [1]⟩]⟩ ∧
    "z" ≠ "w" :=
  ⟨rfl, by decide, rfl, by decide⟩

/-- C5 (amended): a successful rename maps the tree pointwise: every
identifier path bearing the old declarator name, lying in the searched
subtree and satisfying `isDeclaredBy` -- the own binding identifier of the
declarator among them, its slot in the declarator being a variable-reference
position -- gets its name replaced by `newName`; every other identifier
path, in particular every one not spelled with the old name (even when it
satisfies the predicate) and every same-spelled one failing it, is left
unchanged. Node identities are assumed unique across the tree. -/
theorem renameTo_renames_exactly (prog prog2 : Program)
    (D : VariableDeclaratorPath) (oldName newName : String)
    (hname : D.idName = some oldName)
    (hnodes : (prog.idents.map (fun p => p.node)).Nodup)
    (hrun : renameDeclarator newName prog D = .ok prog2) :
    prog2.idents = prog.idents.map (fun P =>
      if P.name = oldName ∧ D.scope.path ∈ P.ancestors ∧
          isDeclaredBy D P = .ok true
        then { P with name := newName } else P) ∧
    (∀ P : IdentifierPath, P.parent = .variableDeclarator P.node →
      isVariable P = true) := by
  have hrun2 : (do
      let varDeclaratorScope ← orThrow (declaringScopeOf oldName D.scopeChain)
      let matched ← filterE (isDeclaredByPred oldName varDeclaratorScope)
        (searchedIdentifiers prog D oldName)
      Except.ok (prog.renameIdents (matched.map (fun p => p.node)) newName)) =
      Except.ok prog2 := by
    rw [← hrun]
    unfold renameDeclarator
    rw [hname]
  refine ⟨?_, ?_⟩
  · cases hSD : declaringScopeOf oldName D.scopeChain with
    | none =>
        rw [hSD] at hrun2
        simp only [orThrow] at hrun2
        rw [exceptErrorBind] at hrun2
        cases hrun2
    | some SD =>
        rw [hSD] at hrun2
        simp only [orThrow] at hrun2
        rw [exceptOkBind] at hrun2
        cases hflt : filterE (isDeclaredByPred oldName SD)
            (searchedIdentifiers prog D oldName) with
        | error e =>
            rw [hflt, exceptErrorBind] at hrun2
            cases hrun2
        | ok matched =>
            rw [hflt, exceptOkBind] at hrun2
            injection hrun2 with hprog2
            subst hprog2
            unfold Program.renameIdents
            show List.map _ prog.idents = List.map _ prog.idents
            refine List.map_congr_left ?_
            intro P hP
            have hcond : (P.node ∈ matched.map (fun p => p.node)) ↔
                (P.name = oldName ∧ D.scope.path ∈ P.ancestors ∧
                 isDeclaredBy D P = .ok true) := by
              constructor
              · intro hmm
                rcases List.mem_map.mp hmm with ⟨Q, hQ, hQnode⟩
                rcases (filterE_ok_elim _ _ _ hflt Q).mp hQ with ⟨hQs, hQp⟩
                have hQin : Q ∈ prog.idents :=
                  ((mem_searchedIdentifiers_iff prog D oldName Q).mp hQs).1
                have hQeq : Q = P :=
                  List.inj_on_of_nodup_map hnodes hQin hP hQnode
                subst hQeq
                rcases (mem_searchedIdentifiers_iff prog D oldName Q).mp hQs
                  with ⟨_, hnm, hanc⟩
                refine ⟨hnm, hanc, ?_⟩
                rw [isDeclaredBy_eq_pred D oldName SD hname hSD Q]
                exact hQp
              · rintro ⟨hnm, hanc, hok⟩
                refine List.mem_map.mpr ⟨P, ?_, rfl⟩
                refine (filterE_ok_elim _ _ _ hflt P).mpr
                  ⟨(mem_searchedIdentifiers_iff prog D oldName P).mpr
                    ⟨hP, hnm, hanc⟩, ?_⟩
                rw [← isDeclaredBy_eq_pred D oldName SD hname hSD P]
                exact hok
            exact if_congr hcond rfl rfl
  · intro P hp
    simp [isVariable, hp]

theorem renameTo_renames_exactly_witness :
    (⟨[⟨11, "w", .variableDeclarator 11, ⟨1, ["x"]⟩, [], [1, 10]⟩,
       ⟨21, "z", .other 99, ⟨1, ["x"]⟩, [], [1]⟩]⟩ : Program).idents =
      (⟨[⟨11, "x", .variableDeclarator 11, ⟨1, ["x"]⟩, [], [1, 10]⟩,
         ⟨21, "z", .other 99, ⟨1, ["x"]⟩, [], [1]⟩]⟩ : Program).idents.map
        (fun P =>
          if P.name = "x" ∧
              (VariableDeclaratorPath.mk 10 11 (some "x") ⟨1, ["x"]⟩
                []).scope.path ∈ P.ancestors ∧
              isDeclaredBy ⟨10, 11, some "x", ⟨1, ["x"]⟩, []⟩ P = .ok true
            then { P with name := "w" } else P) :=
  (renameTo_renames_exactly
      ⟨[⟨11, "x", .variableDeclarator 11, ⟨1, ["x"]⟩, [], [1, 10]⟩,
        ⟨21, "z", .other 99, ⟨1, ["x"]⟩, [], [1]⟩]⟩
      ⟨[⟨11, "w", .variableDeclarator 11, ⟨1, ["x"]⟩, [], [1, 10]⟩,
        ⟨21, "z", .other 99, ⟨1, ["x"]⟩, [], [1]⟩]⟩
      ⟨10, 11, some "x", ⟨1, ["x"]⟩, []⟩ "x" "w" rfl (by decide) rfl).1

end JCS
